import Mathlib

/-!
Verification development for the `workday_weekend` repository
(`caledar_get_from_consultant.py`).

The Python module extracts non-working calendar dates for a year from
free-form Russian legal text using four regular-expression matchers
(`RANGE_RE`, `LISTED_DAYS_RE`, `SINGLE_DAY_RE`, `TRANSFER_RE`), detects the
target year (`_detect_year`), and builds a day-of-year classification map
(`build_year_map`).

This file shallowly embeds that module:
* text is `List Char`; the module's regular expressions are embedded as
  terms of a small backtracking regex engine (`Re`, `reM`, `finditer`)
  whose semantics mirror Python's `re` for the constructs those patterns
  use (greedy and lazy bounded repetition, alternation, capture groups,
  word boundary `\b`, negative lookbehind `(?<!\d)`, `IGNORECASE` over
  ASCII and Cyrillic, `DOTALL` gaps);
* `datetime.date` is `PyDate` with proleptic-Gregorian validity;
  `date.today().year` is an explicit `todayYear` parameter;
* Python `set` is `Finset PyDate`; exceptions never escape: `date(...)`
  is `date_ctor` (an `Except`, raising `ValueError` on invalid input) and
  `_safe_date` is the `try/except` wrapper returning `Option`.
-/

/-! ### Character helpers (Python `str` semantics over the used alphabet) -/

/-- Python `str.lower` restricted to ASCII letters and Cyrillic А-Я / Ё,
the only cased characters appearing in this module's inputs. -/
def lowerRu (c : Char) : Char :=
  if 'A' ≤ c ∧ c ≤ 'Z' then Char.ofNat (c.toNat + 32)
  else if 'А' ≤ c ∧ c ≤ 'Я' then Char.ofNat (c.toNat + 32)
  else if c = 'Ё' then 'ё' else c

/-- Python regex `\s` (whitespace). -/
def spc (c : Char) : Bool :=
  c = ' ' ∨ c = '\t' ∨ c = '\n' ∨ c = '\x0b' ∨ c = '\x0c' ∨ c = '\r'

/-- Python regex `\d` (decimal digit, ASCII in these documents). -/
def digitC (c : Char) : Bool := c.isDigit

/-- Cyrillic letters (full Unicode block, including Ё/ё). -/
def cyrAny (c : Char) : Bool := (0x400 ≤ c.toNat ∧ c.toNat ≤ 0x4FF)

/-- Python regex `\w` (word character) over the alphabet these documents
use: ASCII alphanumerics, underscore, Cyrillic letters. -/
def wordC (c : Char) : Bool := c.isAlphanum ∨ c = '_' ∨ cyrAny c

/-- The character class `[а-я]` under `re.IGNORECASE`. -/
def cyrAZ (c : Char) : Bool := 'а' ≤ lowerRu c ∧ lowerRu c ≤ 'я'

/-- `[\w\s]`. -/
def wordOrSpace (c : Char) : Bool := wordC c ∨ spc c

/-- `int(token)` on an all-digit token. -/
def charsToNat (cs : List Char) : Nat :=
  cs.foldl (fun n c => n * 10 + (c.toNat - 48)) 0

/-! ### Dates (`datetime.date`, proleptic Gregorian) -/

/-- A `datetime.date` value: a (year, month, day) triple. -/
structure PyDate where
  year : Int
  month : Nat
  day : Nat
deriving DecidableEq, Repr

/-- Python `calendar`-style leap-year test used by `datetime`. -/
def isLeap (y : Int) : Bool := y % 4 = 0 ∧ (y % 100 ≠ 0 ∨ y % 400 = 0)

/-- Days in a month of a given year (`_days_in_month`); `0` for an
out-of-range month so that no day is valid there. -/
def daysInMonth (y : Int) (m : Nat) : Nat :=
  match m with
  | 1 => 31 | 2 => if isLeap y then 29 else 28 | 3 => 31 | 4 => 30
  | 5 => 31 | 6 => 30 | 7 => 31 | 8 => 31 | 9 => 30 | 10 => 31
  | 11 => 30 | 12 => 31 | _ => 0

/-- The validity condition `datetime.date` enforces in its constructor. -/
def dateOk (y : Int) (m d : Nat) : Bool :=
  1 ≤ y ∧ y ≤ 9999 ∧ 1 ≤ m ∧ m ≤ 12 ∧ 1 ≤ d ∧ d ≤ daysInMonth y m

/-- `date(year, month, day)`: raises `ValueError` on an invalid triple. -/
def date_ctor (y : Int) (m d : Nat) : Except String PyDate :=
  if dateOk y m d then .ok ⟨y, m, d⟩ else .error "ValueError"

/-- `_safe_date` (lines 74-78): the `try/except ValueError` wrapper around
the `date` constructor. -/
def _safe_date (y : Int) (m d : Nat) : Option PyDate :=
  match date_ctor y m d with
  | .ok dt => some dt
  | .error _ => none

/-- `_days_before_year` of `datetime`: days from 0001-01-01 (exclusive)
to Jan 1 of year `y`; Python `//` is floor division (`Int.fdiv`). -/
def daysBeforeYear (y : Int) : Int :=
  365 * (y - 1) + (y - 1).fdiv 4 - (y - 1).fdiv 100 + (y - 1).fdiv 400

/-- `_days_before_month`. -/
def daysBeforeMonth (y : Int) (m : Nat) : Nat :=
  ((List.range' 1 (m - 1)).map (daysInMonth y)).sum

/-- `date.toordinal()`: 0001-01-01 has ordinal 1. -/
def toOrdinal (d : PyDate) : Int :=
  daysBeforeYear d.year + (daysBeforeMonth d.year d.month : Int) + d.day

/-- `date.weekday()`: Monday = 0 .. Sunday = 6 (0001-01-01 is a Monday). -/
def weekday (d : PyDate) : Int := (toOrdinal d - 1) % 7

/-- Number of iterations of the `build_year_map` while-loop over year `y`
(365, or 366 in a leap year). -/
def daysInYear (y : Int) : Nat := if isLeap y then 366 else 365

/-- Auxiliary month walk: convert a 1-based day-of-year into the month and
day reached by stepping through the year's months. -/
def dateOfDoyAux (y : Int) : Nat → Nat → Nat → PyDate
  | 0, m, doy => ⟨y, m, doy⟩
  | fuel + 1, m, doy =>
    if doy ≤ daysInMonth y m then ⟨y, m, doy⟩
    else dateOfDoyAux y fuel (m + 1) (doy - daysInMonth y m)

/-- The date visited by the `build_year_map` loop at day-of-year `doy`. -/
def dateOfDoy (y : Int) (doy : Nat) : PyDate := dateOfDoyAux y 12 1 doy

/-- `build_year_map` (lines 156-172): walks every day of the year in order
and classifies it `"нерабочий"` when its weekday is Saturday/Sunday
(`weekday() >= 5`) or it belongs to the exception set, else `"рабочий"`.
The dictionary is modelled as the association list produced in loop order,
keyed by the 1-based day-of-year index. -/
def build_year_map (year : Int) (nonworking : Finset PyDate) : List (Nat × String) :=
  (List.range (daysInYear year)).map (fun k =>
    let d := dateOfDoy year (k + 1)
    (k + 1, if 5 ≤ weekday d ∨ d ∈ nonworking then "нерабочий" else "рабочий"))

/-! ### A small backtracking regex engine

Just the constructs used by the module's five patterns, with Python `re`
semantics: ordered alternation, greedy/lazy bounded repetition of a
character class, greedy unbounded repetition of a character class, a
bounded unrolled star for compound groups (sufficient because each unit
consumes at least one character), capture groups, word boundary, and
negative lookbehind for a digit.  All literal/class tests go through
`lowerRu`, giving `re.IGNORECASE`. -/

/-- Regex abstract syntax. -/
inductive Re where
  /-- matches the empty string -/
  | eps : Re
  /-- a literal character, compared case-insensitively -/
  | chr : Char → Re
  /-- `p{lo,hi}` for a character class `p`; `lazyQ` selects lazy matching -/
  | rep : Nat → Nat → Bool → (Char → Bool) → Re
  /-- `p*` (greedy) for a character class `p` -/
  | starCls : (Char → Bool) → Re
  | seq : Re → Re → Re
  /-- ordered alternation, left preferred -/
  | alt : Re → Re → Re
  /-- numbered capture group -/
  | grp : Nat → Re → Re
  /-- `\b` -/
  | wb : Re
  /-- `(?<!\d)` -/
  | nlbDigit : Re

/-- Capture environment: (group, start, stop), most recent first. -/
abbrev REnv := List (Nat × Nat × Nat)

/-- Try candidate end positions in order, committing to the first one the
continuation accepts (this is exactly backtracking order for a
single-character-class repetition). -/
def tryPos (k : Nat → REnv → Option (Nat × REnv)) (env : REnv) :
    List Nat → Option (Nat × REnv)
  | [] => none
  | j :: rest =>
    match k j env with
    | some r => some r
    | none => tryPos k env rest

/-- Length of the maximal run of class-`p` characters at the head. -/
def runLen (p : Char → Bool) : List Char → Nat
  | [] => 0
  | c :: rest => if p c then runLen p rest + 1 else 0

/-- Is the character at index `i` (if any) a word character? -/
def wordAt (text : List Char) (i : Nat) : Bool :=
  match text.get? i with
  | some c => wordC c
  | none => false

/-- CPS matcher: match `r` against `text` at position `i` with capture
environment `env`, calling `k` on every candidate continuation position in
Python's backtracking order and returning the first success. -/
def reM (r : Re) (text : List Char) (i : Nat) (env : REnv)
    (k : Nat → REnv → Option (Nat × REnv)) : Option (Nat × REnv) :=
  match r with
  | .eps => k i env
  | .chr c =>
    match text.get? i with
    | some c' => if lowerRu c' = lowerRu c then k (i + 1) env else none
    | none => none
  | .rep lo hi lazyQ p =>
    let m := runLen p (text.drop i)
    if m < lo then none
    else
      let top := min hi m
      let counts := List.range' lo (top + 1 - lo)
      tryPos k env ((if lazyQ then counts else counts.reverse).map (i + ·))
  | .starCls p =>
    let m := runLen p (text.drop i)
    tryPos k env ((List.range' 0 (m + 1)).reverse.map (i + ·))
  | .seq a b => reM a text i env (fun j e => reM b text j e k)
  | .alt a b =>
    match reM a text i env k with
    | some r => some r
    | none => reM b text i env k
  | .grp n a => reM a text i env (fun j e => k j ((n, i, j) :: e))
  | .wb =>
    let prev := if i = 0 then false else wordAt text (i - 1)
    if prev ≠ wordAt text i then k i env else none
  | .nlbDigit =>
    match (if i = 0 then none else text.get? (i - 1)) with
    | some c => if c.isDigit then none else k i env
    | none => k i env

/-- A regex match: overall span plus captured groups. -/
structure RMatch where
  start : Nat
  stop : Nat
  env : REnv
deriving DecidableEq, Repr

/-- Match `r` at exactly position `i` (anchored attempt). -/
def reMatchAt (r : Re) (text : List Char) (i : Nat) : Option (Nat × REnv) :=
  reM r text i [] (fun j e => some (j, e))

/-- `re.finditer`: scan left to right, emit non-overlapping matches,
resuming after each match (none of the embedded patterns can match the
empty string, but a stuck position still advances by one). -/
def finditerAux (r : Re) (text : List Char) : Nat → Nat → List RMatch
  | _, 0 => []
  | i, fuel + 1 =>
    if i > text.length then []
    else
      match reMatchAt r text i with
      | some (j, env) =>
        ⟨i, j, env⟩ :: finditerAux r text (if i < j then j else i + 1) fuel
      | none => finditerAux r text (i + 1) fuel

/-- All matches of `r` in `text`, leftmost first. -/
def finditer (r : Re) (text : List Char) : List RMatch :=
  finditerAux r text 0 (text.length + 1)

/-- The span captured by group `n` (Python keeps the last capture). -/
def spanOf (env : REnv) (n : Nat) : Option (Nat × Nat) :=
  (env.find? (fun t => t.1 = n)).map (fun t => t.2)

/-- `m.group(n)` as the captured slice of the text. -/
def groupChars (text : List Char) (m : RMatch) (n : Nat) : List Char :=
  match spanOf m.env n with
  | some (s, e) => (text.take e).drop s
  | none => []

/-! ### The module's compiled patterns (lines 23-52) -/

/-- Right-nested sequence of regexes. -/
def seqs : List Re → Re
  | [] => .eps
  | [r] => r
  | r :: rest => .seq r (seqs rest)

/-- A case-insensitive literal string. -/
def lits (s : String) : Re :=
  s.data.foldr (fun c r => Re.seq (.chr c) r) .eps

/-- `\s+`. -/
def sp1 : Re := .seq (.rep 1 1 false spc) (.starCls spc)

/-- `\d{1,2}`. -/
def dd12 : Re := .rep 1 2 false digitC

/-- `[а-я]+`. -/
def cyr1p : Re := .seq (.rep 1 1 false cyrAZ) (.starCls cyrAZ)

/-- Greedy `X*` unrolled `n` times: exact for a unit that cannot match the
empty string, provided `n` exceeds the possible iteration count. -/
def starU : Nat → Re → Re
  | 0, _ => .eps
  | n + 1, a => .alt (.seq a (starU n a)) .eps

/-- Greedy `X?`. -/
def optR (a : Re) : Re := .alt a .eps

/-- `RANGE_RE`: `с\s+(?P<d1>\d{1,2})\s+по\s+(?P<d2>\d{1,2})\s+(?P<month>[а-я]+)\b`
with groups d1 = 1, d2 = 2, month = 3. -/
def rangeRe : Re :=
  seqs [lits "с", sp1, .grp 1 dd12, sp1, lits "по", sp1, .grp 2 dd12, sp1,
        .grp 3 cyr1p, .wb]

/-- One starred unit of `LISTED_DAYS_RE`: `\d{1,2}\s*,\s*`. -/
def listedUnit : Re :=
  seqs [dd12, .starCls spc, lits ",", .starCls spc]

/-- `LISTED_DAYS_RE`:
`(?P<days>(?:\d{1,2}\s*,\s*)*(?:\d{1,2})(?:\s*и\s*\d{1,2})?)\s+(?P<month>[а-я]+)\b`
with groups days = 1, month = 2.  The compound star is unrolled `bound`
times; each unit consumes at least two characters, so any bound larger
than the text length is exact. -/
def listedRe (bound : Nat) : Re :=
  seqs [.grp 1 (seqs [starU bound listedUnit, dd12,
                      optR (seqs [.starCls spc, lits "и", .starCls spc, dd12])]),
        sp1, .grp 2 cyr1p, .wb]

/-- `SINGLE_DAY_RE`: `(?<!\d)(?P<day>\d{1,2})\s+(?P<month>[а-я]+)\b`
with groups day = 1, month = 2. -/
def singleRe : Re :=
  seqs [.nlbDigit, .grp 1 dd12, sp1, .grp 2 cyr1p, .wb]

/-- A verb stem of `TRANSFER_RE`: the literal followed by `\w*`. -/
def stem (s : String) : Re := .seq (lits s) (.starCls wordC)

/-- `TRANSFER_RE`:
`(перенос\w*|перенести\w*|переносят\w*|переносят\w*).{0,80}?`
`(?P<from_day>\d{1,2})\s+(?P<from_month>[а-я]+).{0,40}?`
`на\s+(?P<to_day>\d{1,2})\s+(?P<to_month>[а-я]+)` with `re.DOTALL`
(the lazy gaps match any character) and groups: 1 = verb alternation,
from_day = 2, from_month = 3, to_day = 4, to_month = 5.  The source lists
the stem `переносят` twice; the duplicate is kept. -/
def transferRe : Re :=
  seqs [.grp 1 (.alt (stem "перенос") (.alt (stem "перенести")
          (.alt (stem "переносят") (stem "переносят")))),
        .rep 0 80 true (fun _ => true),
        .grp 2 dd12, sp1, .grp 3 cyr1p,
        .rep 0 40 true (fun _ => true),
        lits "на", sp1, .grp 4 dd12, sp1, .grp 5 cyr1p]

/-- `20\d{2}` (the `(?P<year>...)` body shared by all year patterns). -/
def year4 : Re := seqs [.chr '2', .chr '0', .rep 2 2 false digitC]

/-- `YEAR_PATTERNS[0]`: `(?P<year>20\d{2})\s*года`. -/
def yearP1 : Re := seqs [.grp 1 year4, .starCls spc, lits "года"]

/-- `YEAR_PATTERNS[1]`: `за\s+(?P<year>20\d{2})\s*год`. -/
def yearP2 : Re := seqs [lits "за", sp1, .grp 1 year4, .starCls spc, lits "год"]

/-- `YEAR_PATTERNS[2]`: `календар[ьяе][\w\s]+(?P<year>20\d{2})`. -/
def yearP3 : Re :=
  seqs [lits "календар",
        .rep 1 1 false (fun c => lowerRu c = 'ь' ∨ lowerRu c = 'я' ∨ lowerRu c = 'е'),
        .seq (.rep 1 1 false wordOrSpace) (.starCls wordOrSpace),
        .grp 1 year4]

/-! ### Lexical normalizer and text utilities -/

/-- `MONTHS_RU` (lines 18-21). -/
def MONTHS_RU : List (List Char × Nat) :=
  [("января".data, 1), ("февраля".data, 2), ("марта".data, 3),
   ("апреля".data, 4), ("мая".data, 5), ("июня".data, 6),
   ("июля".data, 7), ("августа".data, 8), ("сентября".data, 9),
   ("октября".data, 10), ("ноября".data, 11), ("декабря".data, 12)]

/-- Characters stripped by `token.strip(" .,:;")`. -/
def stripSet (c : Char) : Bool :=
  c = ' ' ∨ c = '.' ∨ c = ',' ∨ c = ':' ∨ c = ';'

/-- Python `str.strip` with an arbitrary character set. -/
def stripBy (p : Char → Bool) (cs : List Char) : List Char :=
  ((cs.dropWhile p).reverse.dropWhile p).reverse

/-- `_normalize_month` (lines 70-72): lower-case, strip `" .,:;"`, look up
in `MONTHS_RU` (`dict.get`, `None` when absent). -/
def _normalize_month (token : List Char) : Option Nat :=
  ((MONTHS_RU.find? (fun kv => kv.1 = stripBy stripSet (token.map lowerRu))).map
    (fun kv => kv.2))

/-- Is `small` a prefix of `big`? -/
def isPrefL : List Char → List Char → Bool
  | [], _ => true
  | _ :: _, [] => false
  | a :: as_, b :: bs => a = b && isPrefL as_ bs

/-- Python `in` on strings: substring containment. -/
def containsSub (pat s : List Char) : Bool :=
  (List.range (s.length + 1)).any (fun i => isPrefL pat (s.drop i))

/-- Python `raw_days.replace(" и ", ",")`: leftmost, non-overlapping. -/
def replaceIAnd : List Char → List Char
  | a :: b :: c :: rest =>
    if a = ' ' ∧ b = 'и' ∧ c = ' ' then ',' :: replaceIAnd rest
    else a :: replaceIAnd (b :: c :: rest)
  | a :: rest => a :: replaceIAnd rest
  | [] => []

/-- Python `chunk.split(",")`. -/
def splitComma : List Char → List (List Char)
  | [] => [[]]
  | c :: rest =>
    if c = ',' then [] :: splitComma rest
    else
      match splitComma rest with
      | [] => [[c]]
      | t :: ts => (c :: t) :: ts

/-- Python `token.isdigit()`: non-empty and all decimal digits. -/
def pyIsDigit (t : List Char) : Bool := ¬t.isEmpty ∧ t.all Char.isDigit

/-- Lines 108-113: parse `«1, 2 и 7»` into day numbers — replace `" и "`
by a comma, split on commas, strip whitespace, keep numeric tokens. -/
def parseDays (raw : List Char) : List Nat :=
  ((splitComma (replaceIAnd raw)).map (stripBy (fun c => spc c))).filterMap
    (fun t => if pyIsDigit t then some (charsToNat t) else none)

/-- `re.search(r"\d", raw_days)` of the guard on line 105. -/
def hasDigitL (raw : List Char) : Bool := raw.any Char.isDigit

/-! ### Year detection and the extraction pipeline (lines 54-154) -/

/-- `re.search(pat, text)` for a year pattern, returning
`int(m.group("year"))` of the leftmost match. -/
def searchYear (r : Re) (text : List Char) : Option Int :=
  (finditer r text).head?.map (fun m => (charsToNat (groupChars text m 1) : Int))

/-- `_detect_year` (lines 60-68): try the three `YEAR_PATTERNS` in order;
on failure use the fallback if it is truthy, else the current year
(`date.today().year`, passed in explicitly as `todayYear`). -/
def _detect_year (todayYear : Int) (text : List Char) (fallback : Option Int) : Int :=
  match searchYear yearP1 text with
  | some y => y
  | none =>
    match searchYear yearP2 text with
    | some y => y
    | none =>
      match searchYear yearP3 text with
      | some y => y
      | none =>
        match fallback with
        | some f => if f ≠ 0 then f else todayYear
        | none => todayYear

/-- The mutable state of `extract_nonworking_dates`: the accumulating
`nonworking` set and the `notes` list. -/
structure ExtState where
  nonworking : Finset PyDate
  notes : List String
deriving DecidableEq

/-- `ParseResult` (lines 54-58). -/
structure ParseResult where
  year : Int
  nonworking_dates : Finset PyDate
  notes : List String
deriving DecidableEq

/-- Note `f"Диапазон: {d1}-{d2} {m_id['month']}"`. -/
def rangeNote (d1 d2 : Nat) (month : List Char) : String :=
  "Диапазон: " ++ toString d1 ++ "-" ++ toString d2 ++ " " ++ String.mk month

/-- Note `f"Перечень: {raw_days} {m.group('month')}"`. -/
def listNote (raw month : List Char) : String :=
  "Перечень: " ++ String.mk raw ++ " " ++ String.mk month

/-- Note `f"Одиночная дата: {dday} {m.group('month')}"`. -/
def singleNote (dday : Nat) (month : List Char) : String :=
  "Одиночная дата: " ++ toString dday ++ " " ++ String.mk month

/-- Note `f"Перенос на: {d_to} {m.group('to_month')}"`. -/
def transferNote (dto : Nat) (month : List Char) : String :=
  "Перенос на: " ++ toString dto ++ " " ++ String.mk month

/-- Body of the `RANGE_RE` loop (lines 86-96): skip when the month does
not normalize; otherwise add `_safe_date` for every day from
`min(d1,d2)` to `max(d1,d2)` and append one note. -/
def rangeStep (year : Int) (text : List Char) (st : ExtState) (m : RMatch) : ExtState :=
  match _normalize_month (groupChars text m 3) with
  | none => st
  | some month =>
    let d1 := charsToNat (groupChars text m 1)
    let d2 := charsToNat (groupChars text m 2)
    let s' := (List.range' (min d1 d2) (max d1 d2 + 1 - min d1 d2)).foldl
      (fun s dday =>
        match _safe_date year month dday with
        | some dt => insert dt s
        | none => s) st.nonworking
    ⟨s', st.notes ++ [rangeNote d1 d2 (groupChars text m 3)]⟩

/-- One day of the listed-days inner loop (lines 117-122): add the date
when valid and not already present, recording in the boolean whether
anything was newly added. -/
def listedDayStep (year : Int) (month : Nat) (sb : Finset PyDate × Bool) (dday : Nat) :
    Finset PyDate × Bool :=
  match _safe_date year month dday with
  | some dt => if dt ∉ sb.1 then (insert dt sb.1, true) else sb
  | none => sb

/-- Body of the `LISTED_DAYS_RE` loop (lines 99-124): skip on an
unrecognized month, an empty or digit-free `days` group, or an empty
parsed day list; otherwise add the new valid dates and append one note if
and only if at least one date was newly added. -/
def listedStep (year : Int) (text : List Char) (st : ExtState) (m : RMatch) : ExtState :=
  match _normalize_month (groupChars text m 2) with
  | none => st
  | some month =>
    let raw := groupChars text m 1
    if raw.isEmpty || !hasDigitL raw then st
    else
      let days := parseDays raw
      if days.isEmpty then st
      else
        let p := days.foldl (listedDayStep year month) (st.nonworking, false)
        ⟨p.1, if p.2 then st.notes ++ [listNote raw (groupChars text m 2)] else st.notes⟩

/-- Body of the `SINGLE_DAY_RE` loop (lines 128-140): skip on an
unrecognized month, an invalid date, or a date already present; otherwise
add the date only when the lower-cased 40-characters-each-side window
around the match contains one of the trigger substrings
`нерабоч` / `празднич` / `выходн`. -/
def singleStep (year : Int) (text : List Char) (st : ExtState) (m : RMatch) : ExtState :=
  match _normalize_month (groupChars text m 2) with
  | none => st
  | some month =>
    let dday := charsToNat (groupChars text m 1)
    match _safe_date year month dday with
    | none => st
    | some dt =>
      if dt ∈ st.nonworking then st
      else
        let window := ((text.take (m.stop + 40)).drop (m.start - 40)).map lowerRu
        if containsSub "нерабоч".data window || containsSub "празднич".data window ||
           containsSub "выходн".data window then
          ⟨insert dt st.nonworking, st.notes ++ [singleNote dday (groupChars text m 2)]⟩
        else st

/-- Body of the `TRANSFER_RE` loop (lines 143-152): only the destination
date is added (the source day and month are computed but unused); one note
per successful match. -/
def transferStep (year : Int) (text : List Char) (st : ExtState) (m : RMatch) : ExtState :=
  let _d_from := charsToNat (groupChars text m 2)
  let d_to := charsToNat (groupChars text m 4)
  let _m_from := _normalize_month (groupChars text m 3)
  match _normalize_month (groupChars text m 5) with
  | none => st
  | some m_to =>
    match _safe_date year m_to d_to with
    | none => st
    | some dt => ⟨insert dt st.nonworking, st.notes ++ [transferNote d_to (groupChars text m 5)]⟩

/-- The `RANGE_RE` loop. -/
def rangeLoop (year : Int) (text : List Char) (st : ExtState) : ExtState :=
  (finditer rangeRe text).foldl (rangeStep year text) st

/-- The `LISTED_DAYS_RE` loop (star unrolled past the text length). -/
def listedLoop (year : Int) (text : List Char) (st : ExtState) : ExtState :=
  (finditer (listedRe (text.length + 1)) text).foldl (listedStep year text) st

/-- The `SINGLE_DAY_RE` loop. -/
def singleLoop (year : Int) (text : List Char) (st : ExtState) : ExtState :=
  (finditer singleRe text).foldl (singleStep year text) st

/-- The `TRANSFER_RE` loop. -/
def transferLoop (year : Int) (text : List Char) (st : ExtState) : ExtState :=
  (finditer transferRe text).foldl (transferStep year text) st

/-- The four extractor loops run in source order on an empty state. -/
def pipeline (year : Int) (text : List Char) : ExtState :=
  transferLoop year text (singleLoop year text (listedLoop year text
    (rangeLoop year text ⟨∅, []⟩)))

/-- `extract_nonworking_dates` (lines 80-154). -/
def extract_nonworking_dates (todayYear : Int) (text : List Char)
    (year_hint : Option Int) : ParseResult :=
  let year := _detect_year todayYear text year_hint
  let st := pipeline year text
  ⟨year, st.nonworking, st.notes⟩

/-! ### Generic fold lemmas -/

/-- A predicate preserved by every step of a left fold holds at the end. -/
theorem foldl_pres {σ α : Type _} (f : σ → α → σ) (P : σ → Prop)
    (h : ∀ s a, P s → P (f s a)) : ∀ (l : List α) (s : σ), P s → P (l.foldl f s)
  | [], _, hs => hs
  | a :: l, s, hs => foldl_pres f P h l (f s a) (h s a hs)

/-- A preserved predicate established by processing a particular list
element holds after folding any list containing that element. -/
theorem foldl_hit {σ α : Type _} (f : σ → α → σ) (P : σ → Prop) (m : α)
    (hpres : ∀ s a, P s → P (f s a)) (hhit : ∀ s, P (f s m)) :
    ∀ (l : List α) (s : σ), m ∈ l → P (l.foldl f s) := by
  intro l
  induction l with
  | nil => intro s hm; exact absurd hm (List.not_mem_nil m)
  | cons a t ih =>
    intro s hm
    rcases List.mem_cons.mp hm with rfl | hm
    · exact foldl_pres f P hpres t (f s m) (hhit s)
    · exact ih (f s a) hm

/-! ### Facts about `_safe_date` -/

/-- A successful `_safe_date` returns exactly the requested triple, and
that triple satisfies the `date` constructor's validity condition. -/
theorem safe_date_some {y : Int} {m d : Nat} {dt : PyDate}
    (h : _safe_date y m d = some dt) : dt = ⟨y, m, d⟩ ∧ dateOk y m d = true := by
  by_cases hok : dateOk y m d = true
  · refine ⟨?_, hok⟩
    simp only [_safe_date, date_ctor, hok, if_true] at h
    cases h
    rfl
  · simp only [_safe_date, date_ctor, hok, if_false, Bool.false_eq_true] at h
    exact Option.noConfusion h

/-- The `except ValueError` branch: an invalid triple yields `None`. -/
theorem safe_date_none {y : Int} {m d : Nat} (h : dateOk y m d = false) :
    _safe_date y m d = none := by
  simp only [_safe_date, date_ctor, h, Bool.false_eq_true, if_false]

/-! ### Step lemmas: monotonicity of the accumulating set -/

/-- The range-loop body never removes dates. -/
theorem rangeStep_mono (year : Int) (text : List Char) (st : ExtState) (m : RMatch) :
    st.nonworking ⊆ (rangeStep year text st m).nonworking := by
  unfold rangeStep
  cases _normalize_month (groupChars text m 3) with
  | none => exact Finset.Subset.refl _
  | some month =>
    simp only
    refine foldl_pres _ (fun s => st.nonworking ⊆ s) ?_ _ _ (Finset.Subset.refl _)
    intro s a hs
    cases _safe_date year month a with
    | none => exact hs
    | some dt => exact hs.trans (Finset.subset_insert dt s)

/-- The listed-days inner step never removes dates. -/
theorem listedDayStep_mono (year : Int) (month : Nat) (sb : Finset PyDate × Bool) (d : Nat) :
    sb.1 ⊆ (listedDayStep year month sb d).1 := by
  unfold listedDayStep
  cases _safe_date year month d with
  | none => exact Finset.Subset.refl _
  | some dt =>
    by_cases hin : dt ∈ sb.1
    · simp [hin]
    · simp [hin, Finset.subset_insert]

/-- The list-loop body never removes dates. -/
theorem listedStep_mono (year : Int) (text : List Char) (st : ExtState) (m : RMatch) :
    st.nonworking ⊆ (listedStep year text st m).nonworking := by
  unfold listedStep
  cases _normalize_month (groupChars text m 2) with
  | none => exact Finset.Subset.refl _
  | some month =>
    simp only
    split
    · exact Finset.Subset.refl _
    · split
      · exact Finset.Subset.refl _
      · refine foldl_pres (listedDayStep year month)
          (fun sb : Finset PyDate × Bool => st.nonworking ⊆ sb.1) ?_ _ _
          (Finset.Subset.refl _)
        intro sb d hs
        exact hs.trans (listedDayStep_mono year month sb d)

/-- The single-date loop body never removes dates. -/
theorem singleStep_mono (year : Int) (text : List Char) (st : ExtState) (m : RMatch) :
    st.nonworking ⊆ (singleStep year text st m).nonworking := by
  unfold singleStep
  cases _normalize_month (groupChars text m 2) with
  | none => exact Finset.Subset.refl _
  | some month =>
    dsimp only
    cases _safe_date year month (charsToNat (groupChars text m 1)) with
    | none => exact Finset.Subset.refl _
    | some dt =>
      dsimp only
      by_cases hin : dt ∈ st.nonworking
      · simp only [hin, if_true]
        exact Finset.Subset.refl _
      · simp only [hin, if_false]
        split
        · exact Finset.subset_insert _ _
        · exact Finset.Subset.refl _

/-- The transfer-loop body never removes dates. -/
theorem transferStep_mono (year : Int) (text : List Char) (st : ExtState) (m : RMatch) :
    st.nonworking ⊆ (transferStep year text st m).nonworking := by
  unfold transferStep
  cases _normalize_month (groupChars text m 5) with
  | none => exact Finset.Subset.refl _
  | some mto =>
    simp only
    cases _safe_date year mto (charsToNat (groupChars text m 4)) with
    | none => exact Finset.Subset.refl _
    | some dt => exact Finset.subset_insert _ _

/-! ### Loop-level monotonicity and pipeline composition -/

/-- The range loop only grows the set. -/
theorem rangeLoop_mono (year : Int) (text : List Char) (st : ExtState) :
    st.nonworking ⊆ (rangeLoop year text st).nonworking :=
  foldl_pres _ (fun s : ExtState => st.nonworking ⊆ s.nonworking)
    (fun s a hs => hs.trans (rangeStep_mono year text s a)) _ st (Finset.Subset.refl _)

/-- The list loop only grows the set. -/
theorem listedLoop_mono (year : Int) (text : List Char) (st : ExtState) :
    st.nonworking ⊆ (listedLoop year text st).nonworking :=
  foldl_pres _ (fun s : ExtState => st.nonworking ⊆ s.nonworking)
    (fun s a hs => hs.trans (listedStep_mono year text s a)) _ st (Finset.Subset.refl _)

/-- The single-date loop only grows the set. -/
theorem singleLoop_mono (year : Int) (text : List Char) (st : ExtState) :
    st.nonworking ⊆ (singleLoop year text st).nonworking :=
  foldl_pres _ (fun s : ExtState => st.nonworking ⊆ s.nonworking)
    (fun s a hs => hs.trans (singleStep_mono year text s a)) _ st (Finset.Subset.refl _)

/-- The transfer loop only grows the set. -/
theorem transferLoop_mono (year : Int) (text : List Char) (st : ExtState) :
    st.nonworking ⊆ (transferLoop year text st).nonworking :=
  foldl_pres _ (fun s : ExtState => st.nonworking ⊆ s.nonworking)
    (fun s a hs => hs.trans (transferStep_mono year text s a)) _ st (Finset.Subset.refl _)

/-- A date present after the range loop survives to the final state. -/
theorem pipeline_mem_of_rangeLoop {year : Int} {text : List Char} {dt : PyDate}
    (h : dt ∈ (rangeLoop year text ⟨∅, []⟩).nonworking) :
    dt ∈ (pipeline year text).nonworking :=
  transferLoop_mono year text _ (singleLoop_mono year text _ (listedLoop_mono year text _ h))

/-- A date present after the list loop survives to the final state. -/
theorem pipeline_mem_of_listedLoop {year : Int} {text : List Char} {dt : PyDate}
    (h : dt ∈ (listedLoop year text (rangeLoop year text ⟨∅, []⟩)).nonworking) :
    dt ∈ (pipeline year text).nonworking :=
  transferLoop_mono year text _ (singleLoop_mono year text _ h)

/-! ### The range-loop body adds every valid date of the matched span -/

/-- Lines 92-95: for a range match with a recognized month, every day of
`min(d1,d2)..max(d1,d2)` whose date is valid ends up in the set. -/
theorem rangeStep_adds (year : Int) (text : List Char) (st : ExtState) (m : RMatch)
    (month k : Nat) (dt : PyDate)
    (hmo : _normalize_month (groupChars text m 3) = some month)
    (hlo : min (charsToNat (groupChars text m 1)) (charsToNat (groupChars text m 2)) ≤ k)
    (hhi : k ≤ max (charsToNat (groupChars text m 1)) (charsToNat (groupChars text m 2)))
    (hsd : _safe_date year month k = some dt) :
    dt ∈ (rangeStep year text st m).nonworking := by
  unfold rangeStep
  rw [hmo]
  dsimp only
  refine foldl_hit _ (fun s : Finset PyDate => dt ∈ s) k ?_ ?_ _ _ ?_
  · intro s a hs
    cases _safe_date year month a with
    | none => exact hs
    | some dt2 => exact Finset.mem_insert_of_mem hs
  · intro s
    rw [hsd]
    exact Finset.mem_insert_self _ _
  · rw [List.mem_range'_1]
    omega

/-! ### Day-token parsing: a parsed day certifies the digit guard -/

/-- Stripping only removes characters. -/
theorem mem_of_mem_stripBy {p : Char → Bool} {t : List Char} {c : Char}
    (h : c ∈ stripBy p t) : c ∈ t := by
  unfold stripBy at h
  rw [List.mem_reverse] at h
  have h1 := (List.dropWhile_sublist p).subset h
  rw [List.mem_reverse] at h1
  exact (List.dropWhile_sublist p).subset h1

/-- `split(",")` never returns an empty list of tokens. -/
theorem splitComma_ne_nil (cs : List Char) : splitComma cs ≠ [] := by
  cases cs with
  | nil => simp [splitComma]
  | cons c rest =>
    unfold splitComma
    split
    · simp
    · split
      · simp
      · simp

/-- Every character of a `split(",")` token occurs in the split string. -/
theorem mem_splitComma {cs : List Char} :
    ∀ {t : List Char}, t ∈ splitComma cs → ∀ {c : Char}, c ∈ t → c ∈ cs := by
  induction cs with
  | nil =>
    intro t ht c hc
    simp [splitComma] at ht
    subst ht
    exact absurd hc (List.not_mem_nil c)
  | cons a rest ih =>
    intro t ht c hc
    unfold splitComma at ht
    by_cases ha : a = ','
    · rw [if_pos ha] at ht
      rcases List.mem_cons.mp ht with rfl | ht
      · exact absurd hc (List.not_mem_nil c)
      · exact List.mem_cons_of_mem a (ih ht hc)
    · rw [if_neg ha] at ht
      rcases hsp : splitComma rest with _ | ⟨t0, ts⟩
      · exact absurd hsp (splitComma_ne_nil rest)
      · rw [hsp] at ht
        rcases List.mem_cons.mp ht with rfl | ht
        · rcases List.mem_cons.mp hc with rfl | hc
          · exact List.mem_cons_self c rest
          · exact List.mem_cons_of_mem a (ih (hsp ▸ List.mem_cons_self t0 ts) hc)
        · exact List.mem_cons_of_mem a (ih (hsp ▸ List.mem_cons_of_mem t0 ht) hc)

/-- `replace(" и ", ",")` only introduces commas; every other character of
the result was present in the input. -/
theorem mem_replaceIAnd {cs : List Char} {c : Char} (h : c ∈ replaceIAnd cs) :
    c = ',' ∨ c ∈ cs := by
  induction cs using replaceIAnd.induct with
  | case1 a b d rest hp ih =>
    rw [replaceIAnd, if_pos hp] at h
    rcases List.mem_cons.mp h with rfl | h
    · exact Or.inl rfl
    · rcases ih h with h' | h'
      · exact Or.inl h'
      · exact Or.inr (by simp [h'])
  | case2 a b d rest hp ih =>
    rw [replaceIAnd, if_neg hp] at h
    rcases List.mem_cons.mp h with rfl | h
    · exact Or.inr (List.mem_cons_self _ _)
    · rcases ih h with h' | h'
      · exact Or.inl h'
      · exact Or.inr (List.mem_cons_of_mem _ h')
  | case3 a t hne ih =>
    cases t with
    | nil =>
      simp only [replaceIAnd] at h
      rcases List.mem_cons.mp h with rfl | h
      · exact Or.inr (List.mem_cons_self _ _)
      · exact absurd h (List.not_mem_nil c)
    | cons b t2 =>
      cases t2 with
      | nil =>
        simp only [replaceIAnd] at h
        rcases List.mem_cons.mp h with rfl | h
        · exact Or.inr (List.mem_cons_self _ _)
        · rcases List.mem_cons.mp h with rfl | h
          · exact Or.inr (by simp)
          · exact absurd h (List.not_mem_nil c)
      | cons d t3 => exact absurd rfl (hne b d t3)
  | case4 =>
    simp only [replaceIAnd] at h
    exact absurd h (List.not_mem_nil c)

/-- A list never equals itself extended by one element. -/
theorem self_ne_append_singleton {α : Type _} (l : List α) (x : α) : l ≠ l ++ [x] := by
  intro h
  have hlen := congrArg List.length h
  simp at hlen

/-- A successfully parsed day number certifies the digit guard of line 105:
the raw `days` group is non-empty and contains a digit. -/
theorem parseDays_guard {raw : List Char} {k : Nat} (hk : k ∈ parseDays raw) :
    hasDigitL raw = true ∧ raw.isEmpty = false := by
  unfold parseDays at hk
  rw [List.mem_filterMap] at hk
  obtain ⟨t, ht, hsome⟩ := hk
  rw [List.mem_map] at ht
  obtain ⟨t0, ht0, rfl⟩ := ht
  by_cases hd : pyIsDigit (stripBy (fun c => spc c) t0) = true
  · have hne : stripBy (fun c => spc c) t0 ≠ [] := by
      rcases hstrip : stripBy (fun c => spc c) t0 with _ | ⟨c, cs⟩
      · rw [hstrip] at hd
        simp [pyIsDigit] at hd
      · simp
    obtain ⟨c, hc⟩ := List.exists_mem_of_ne_nil _ hne
    have hcd : c.isDigit = true := by
      simp only [pyIsDigit, Bool.decide_and, Bool.and_eq_true, decide_eq_true_eq] at hd
      exact List.all_eq_true.mp hd.2 c hc
    have hc0 : c ∈ t0 := mem_of_mem_stripBy hc
    have hcr : c ∈ replaceIAnd raw := mem_splitComma ht0 hc0
    rcases mem_replaceIAnd hcr with rfl | hcraw
    · simp [Char.isDigit] at hcd
    · refine ⟨?_, List.isEmpty_eq_false.mpr (List.ne_nil_of_mem hcraw)⟩
      unfold hasDigitL
      rw [List.any_eq_true]
      exact ⟨c, hcraw, hcd⟩
  · rw [if_neg hd] at hsome
    exact Option.noConfusion hsome

/-! ### The list-loop body: additions and the note condition -/

/-- A valid parsed day of a list match ends up in the inner-fold set. -/
theorem listedFold_adds (year : Int) (month : Nat) {days : List Nat} {k : Nat} {dt : PyDate}
    (hk : k ∈ days) (hsd : _safe_date year month k = some dt) (sb : Finset PyDate × Bool) :
    dt ∈ (days.foldl (listedDayStep year month) sb).1 := by
  refine foldl_hit _ (fun sb : Finset PyDate × Bool => dt ∈ sb.1) k ?_ ?_ _ _ hk
  · intro s a hs
    exact listedDayStep_mono year month s a hs
  · intro s
    unfold listedDayStep
    rw [hsd]
    dsimp only
    by_cases hin : dt ∈ s.1
    · simp [hin]
    · simp [hin, Finset.mem_insert_self]

/-- The `added_any` flag, once true, stays true. -/
theorem listedFold_true (year : Int) (month : Nat) (days : List Nat)
    (sb : Finset PyDate × Bool) (h : sb.2 = true) :
    (days.foldl (listedDayStep year month) sb).2 = true := by
  refine foldl_pres _ (fun sb : Finset PyDate × Bool => sb.2 = true) ?_ days sb h
  intro s a hs
  unfold listedDayStep
  cases _safe_date year month a with
  | none => exact hs
  | some dt =>
    dsimp only
    by_cases hin : dt ∉ s.1
    · simp [hin]
    · simp [hin, hs]

/-- If the `added_any` flag ends false, the set was left unchanged. -/
theorem listedFold_false_unchanged (year : Int) (month : Nat) :
    ∀ (days : List Nat) (sb : Finset PyDate × Bool),
      (days.foldl (listedDayStep year month) sb).2 = false →
      (days.foldl (listedDayStep year month) sb).1 = sb.1 := by
  intro days
  induction days with
  | nil => intro sb _; rfl
  | cons d rest ih =>
    intro sb h
    rw [List.foldl_cons] at h ⊢
    cases hsd : _safe_date year month d with
    | none =>
      have hstep : listedDayStep year month sb d = sb := by
        unfold listedDayStep
        rw [hsd]
      rw [hstep] at h ⊢
      exact ih sb h
    | some dt =>
      by_cases hin : dt ∈ sb.1
      · have hstep : listedDayStep year month sb d = sb := by
          unfold listedDayStep
          rw [hsd]
          simp [hin]
        rw [hstep] at h ⊢
        exact ih sb h
      · have hstep : listedDayStep year month sb d = (insert dt sb.1, true) := by
          unfold listedDayStep
          rw [hsd]
          simp [hin]
        rw [hstep] at h
        have htrue := listedFold_true year month rest (insert dt sb.1, true) rfl
        rw [htrue] at h
        exact Bool.noConfusion h

/-- Lines 117-122: starting from `added_any = False`, the flag ends true
exactly when some listed day forms a valid date not already in the set. -/
theorem listedFold_snd_iff (year : Int) (month : Nat) :
    ∀ (days : List Nat) (s : Finset PyDate),
      (days.foldl (listedDayStep year month) (s, false)).2 = true ↔
        ∃ k ∈ days, ∃ dt, _safe_date year month k = some dt ∧ dt ∉ s := by
  intro days
  induction days with
  | nil => intro s; simp
  | cons d rest ih =>
    intro s
    rw [List.foldl_cons]
    cases hsd : _safe_date year month d with
    | none =>
      have hstep : listedDayStep year month (s, false) d = (s, false) := by
        unfold listedDayStep
        rw [hsd]
      rw [hstep, ih s]
      constructor
      · rintro ⟨k, hk, dt, hdt, hnin⟩
        exact ⟨k, List.mem_cons_of_mem d hk, dt, hdt, hnin⟩
      · rintro ⟨k, hk, dt, hdt, hnin⟩
        rcases List.mem_cons.mp hk with rfl | hk
        · rw [hsd] at hdt
          exact Option.noConfusion hdt
        · exact ⟨k, hk, dt, hdt, hnin⟩
    | some dt =>
      by_cases hin : dt ∈ s
      · have hstep : listedDayStep year month (s, false) d = (s, false) := by
          unfold listedDayStep
          rw [hsd]
          simp [hin]
        rw [hstep, ih s]
        constructor
        · rintro ⟨k, hk, dt', hdt', hnin⟩
          exact ⟨k, List.mem_cons_of_mem d hk, dt', hdt', hnin⟩
        · rintro ⟨k, hk, dt', hdt', hnin⟩
          rcases List.mem_cons.mp hk with rfl | hk
          · rw [hsd] at hdt'
            cases hdt'
            exact absurd hin hnin
          · exact ⟨k, hk, dt', hdt', hnin⟩
      · have hstep : listedDayStep year month (s, false) d = (insert dt s, true) := by
          unfold listedDayStep
          rw [hsd]
          simp [hin]
        rw [hstep]
        constructor
        · intro _
          exact ⟨d, List.mem_cons_self d rest, dt, hsd, hin⟩
        · intro _
          exact listedFold_true year month rest _ rfl

/-- Lines 99-124: a valid parsed day of a list match is in the set after
the list-loop body (it is added when new, and already there otherwise). -/
theorem listedStep_adds (year : Int) (text : List Char) (st : ExtState) (m : RMatch)
    {month k : Nat} {dt : PyDate}
    (hmo : _normalize_month (groupChars text m 2) = some month)
    (hk : k ∈ parseDays (groupChars text m 1))
    (hsd : _safe_date year month k = some dt) :
    dt ∈ (listedStep year text st m).nonworking := by
  obtain ⟨hdig, hne⟩ := parseDays_guard hk
  unfold listedStep
  rw [hmo]
  dsimp only
  rw [hne, hdig]
  simp only [Bool.not_true, Bool.or_false, Bool.false_eq_true, if_false]
  rw [if_neg (by
    rw [List.isEmpty_eq_false.mpr (List.ne_nil_of_mem hk)]
    exact Bool.false_ne_true)]
  exact listedFold_adds year month hk hsd _

/-- Lines 117-124: the list-loop body appends its diagnostic note exactly
when at least one listed day was newly added to the set. -/
theorem listedStep_notes (year : Int) (text : List Char) (st : ExtState) (m : RMatch)
    {month : Nat} (hmo : _normalize_month (groupChars text m 2) = some month) :
    ((listedStep year text st m).notes =
        st.notes ++ [listNote (groupChars text m 1) (groupChars text m 2)] ↔
      ∃ k ∈ parseDays (groupChars text m 1), ∃ dt,
        _safe_date year month k = some dt ∧ dt ∉ st.nonworking) := by
  unfold listedStep
  rw [hmo]
  dsimp only
  by_cases hg : ((groupChars text m 1).isEmpty || !hasDigitL (groupChars text m 1)) = true
  · rw [if_pos hg]
    constructor
    · intro h
      exact absurd h (self_ne_append_singleton _ _)
    · rintro ⟨k, hk, -⟩
      obtain ⟨hdig, hne⟩ := parseDays_guard hk
      rw [hne, hdig] at hg
      simp at hg
  · rw [if_neg hg]
    by_cases he : (parseDays (groupChars text m 1)).isEmpty = true
    · rw [if_pos he]
      constructor
      · intro h
        exact absurd h (self_ne_append_singleton _ _)
      · rintro ⟨k, hk, -⟩
        rw [List.isEmpty_iff.mp he] at hk
        exact absurd hk (List.not_mem_nil k)
    · rw [if_neg he]
      by_cases hp : ((parseDays (groupChars text m 1)).foldl (listedDayStep year month)
          (st.nonworking, false)).2 = true
      · rw [if_pos hp]
        dsimp only
        constructor
        · intro _
          exact (listedFold_snd_iff year month _ st.nonworking).mp hp
        · intro _
          rfl
      · rw [if_neg hp]
        dsimp only
        constructor
        · intro h
          exact absurd h (self_ne_append_singleton _ _)
        · intro hex
          exact absurd ((listedFold_snd_iff year month _ st.nonworking).mpr hex) hp

/-- Lines 99-124: when no listed day is both valid and new, the list-loop
body is a no-op. -/
theorem listedStep_unchanged (year : Int) (text : List Char) (st : ExtState) (m : RMatch)
    {month : Nat} (hmo : _normalize_month (groupChars text m 2) = some month)
    (hnone : ¬ ∃ k ∈ parseDays (groupChars text m 1), ∃ dt,
        _safe_date year month k = some dt ∧ dt ∉ st.nonworking) :
    listedStep year text st m = st := by
  unfold listedStep
  rw [hmo]
  dsimp only
  by_cases hg : ((groupChars text m 1).isEmpty || !hasDigitL (groupChars text m 1)) = true
  · rw [if_pos hg]
  · rw [if_neg hg]
    by_cases he : (parseDays (groupChars text m 1)).isEmpty = true
    · rw [if_pos he]
    · rw [if_neg he]
      have hp : ((parseDays (groupChars text m 1)).foldl (listedDayStep year month)
          (st.nonworking, false)).2 = false := by
        cases hb : ((parseDays (groupChars text m 1)).foldl (listedDayStep year month)
            (st.nonworking, false)).2 with
        | false => rfl
        | true =>
          exact absurd ((listedFold_snd_iff year month _ st.nonworking).mp hb) hnone
      have h1 := listedFold_false_unchanged year month (parseDays (groupChars text m 1))
        (st.nonworking, false) hp
      rw [hp]
      simp only [Bool.false_eq_true, if_false]
      rw [h1]

/-! ### The transfer-loop body adds at most its destination date -/

/-- Lines 143-152: any date present after the transfer-loop body was
either already present or is the (valid) destination date built from the
`to_day`/`to_month` groups — never the source date. -/
theorem transferStep_subset (year : Int) (text : List Char) (st : ExtState) (m : RMatch)
    {d : PyDate} (hd : d ∈ (transferStep year text st m).nonworking) :
    d ∈ st.nonworking ∨ ∃ mto, _normalize_month (groupChars text m 5) = some mto ∧
      _safe_date year mto (charsToNat (groupChars text m 4)) = some d := by
  unfold transferStep at hd
  cases hmo : _normalize_month (groupChars text m 5) with
  | none =>
    rw [hmo] at hd
    exact Or.inl hd
  | some mto =>
    rw [hmo] at hd
    dsimp only at hd
    cases hsd : _safe_date year mto (charsToNat (groupChars text m 4)) with
    | none =>
      rw [hsd] at hd
      exact Or.inl hd
    | some dt =>
      rw [hsd] at hd
      dsimp only at hd
      rcases Finset.mem_insert.mp hd with rfl | h
      · exact Or.inr ⟨mto, rfl, hsd⟩
      · exact Or.inl h

/-! ### Provenance: every date in the final set comes from `_safe_date` -/

/-- A date produced by `_safe_date` carries the requested year. -/
theorem safe_date_year {y : Int} {m d : Nat} {dt : PyDate}
    (h : _safe_date y m d = some dt) : dt.year = y := by
  rcases safe_date_some h with ⟨rfl, -⟩
  rfl

/-- A date produced by `_safe_date` satisfies the validity condition. -/
theorem safe_date_valid {y : Int} {m d : Nat} {dt : PyDate}
    (h : _safe_date y m d = some dt) : dateOk dt.year dt.month dt.day = true := by
  rcases safe_date_some h with ⟨rfl, hok⟩
  exact hok

/-- Any loop whose body only inserts `_safe_date year` results preserves
provenance of set members. -/
theorem loop_inserts (year : Int) (step : ExtState → RMatch → ExtState)
    (hstep : ∀ s m e, e ∈ (step s m).nonworking →
      e ∈ s.nonworking ∨ ∃ mo dd, _safe_date year mo dd = some e) :
    ∀ (ms : List RMatch) (st : ExtState) (d : PyDate), d ∈ (ms.foldl step st).nonworking →
      d ∈ st.nonworking ∨ ∃ mo dd, _safe_date year mo dd = some d := by
  intro ms st d hd
  refine foldl_pres step
    (fun s : ExtState => ∀ e ∈ s.nonworking,
      e ∈ st.nonworking ∨ ∃ mo dd, _safe_date year mo dd = some e) ?_ ms st
    (fun e he => Or.inl he) d hd
  intro s a hs e he
  rcases hstep s a e he with h | h
  · exact hs e h
  · exact Or.inr h

/-- Range-loop body: every new member comes from `_safe_date year`. -/
theorem rangeStep_inserts (year : Int) (text : List Char) :
    ∀ (s : ExtState) (m : RMatch) (e : PyDate), e ∈ (rangeStep year text s m).nonworking →
      e ∈ s.nonworking ∨ ∃ mo dd, _safe_date year mo dd = some e := by
  intro s m e he
  unfold rangeStep at he
  cases hmo : _normalize_month (groupChars text m 3) with
  | none =>
    rw [hmo] at he
    exact Or.inl he
  | some month =>
    rw [hmo] at he
    dsimp only at he
    refine foldl_pres _
      (fun t : Finset PyDate => ∀ e' ∈ t,
        e' ∈ s.nonworking ∨ ∃ mo dd, _safe_date year mo dd = some e') ?_ _ _
      (fun e' he' => Or.inl he') e he
    intro t a ht e' he'
    cases hsd : _safe_date year month a with
    | none =>
      rw [hsd] at he'
      exact ht e' he'
    | some dt =>
      rw [hsd] at he'
      rcases Finset.mem_insert.mp he' with rfl | h
      · exact Or.inr ⟨month, a, hsd⟩
      · exact ht e' h

/-- List-loop body: every new member comes from `_safe_date year`. -/
theorem listedStep_inserts (year : Int) (text : List Char) :
    ∀ (s : ExtState) (m : RMatch) (e : PyDate), e ∈ (listedStep year text s m).nonworking →
      e ∈ s.nonworking ∨ ∃ mo dd, _safe_date year mo dd = some e := by
  intro s m e he
  unfold listedStep at he
  cases hmo : _normalize_month (groupChars text m 2) with
  | none =>
    rw [hmo] at he
    exact Or.inl he
  | some month =>
    rw [hmo] at he
    dsimp only at he
    by_cases hg : ((groupChars text m 1).isEmpty || !hasDigitL (groupChars text m 1)) = true
    · rw [if_pos hg] at he
      exact Or.inl he
    · rw [if_neg hg] at he
      by_cases hemp : (parseDays (groupChars text m 1)).isEmpty = true
      · rw [if_pos hemp] at he
        exact Or.inl he
      · rw [if_neg hemp] at he
        dsimp only at he
        refine foldl_pres (listedDayStep year month)
          (fun sb : Finset PyDate × Bool => ∀ e' ∈ sb.1,
            e' ∈ s.nonworking ∨ ∃ mo dd, _safe_date year mo dd = some e') ?_ _ _
          (fun e' he' => Or.inl he') e he
        intro sb a ht e' he'
        unfold listedDayStep at he'
        cases hsd : _safe_date year month a with
        | none =>
          rw [hsd] at he'
          exact ht e' he'
        | some dt =>
          rw [hsd] at he'
          dsimp only at he'
          by_cases hin : dt ∈ sb.1
          · simp only [hin, not_true_eq_false, if_false] at he'
            exact ht e' he'
          · simp only [hin, not_false_eq_true, if_true] at he'
            rcases Finset.mem_insert.mp he' with rfl | h
            · exact Or.inr ⟨month, a, hsd⟩
            · exact ht e' h

/-- Single-date-loop body: every new member comes from `_safe_date year`. -/
theorem singleStep_inserts (year : Int) (text : List Char) :
    ∀ (s : ExtState) (m : RMatch) (e : PyDate), e ∈ (singleStep year text s m).nonworking →
      e ∈ s.nonworking ∨ ∃ mo dd, _safe_date year mo dd = some e := by
  intro s m e he
  unfold singleStep at he
  cases hmo : _normalize_month (groupChars text m 2) with
  | none =>
    rw [hmo] at he
    exact Or.inl he
  | some month =>
    rw [hmo] at he
    dsimp only at he
    cases hsd : _safe_date year month (charsToNat (groupChars text m 1)) with
    | none =>
      rw [hsd] at he
      exact Or.inl he
    | some dt =>
      rw [hsd] at he
      dsimp only at he
      by_cases hin : dt ∈ s.nonworking
      · rw [if_pos hin] at he
        exact Or.inl he
      · rw [if_neg hin] at he
        split at he
        · rcases Finset.mem_insert.mp he with rfl | h
          · exact Or.inr ⟨month, charsToNat (groupChars text m 1), hsd⟩
          · exact Or.inl h
        · exact Or.inl he

/-- Transfer-loop body: every new member comes from `_safe_date year`. -/
theorem transferStep_inserts (year : Int) (text : List Char) :
    ∀ (s : ExtState) (m : RMatch) (e : PyDate), e ∈ (transferStep year text s m).nonworking →
      e ∈ s.nonworking ∨ ∃ mo dd, _safe_date year mo dd = some e := by
  intro s m e he
  rcases transferStep_subset year text s m he with h | ⟨mto, _, hsd⟩
  · exact Or.inl h
  · exact Or.inr ⟨mto, charsToNat (groupChars text m 4), hsd⟩

/-- Every date in the final pipeline state was built by `_safe_date` with
the single detected year. -/
theorem pipeline_inserts (year : Int) (text : List Char) {d : PyDate}
    (hd : d ∈ (pipeline year text).nonworking) :
    ∃ mo dd, _safe_date year mo dd = some d := by
  unfold pipeline transferLoop at hd
  rcases loop_inserts year _ (transferStep_inserts year text) _ _ d hd with h1 | h1
  · unfold singleLoop at h1
    rcases loop_inserts year _ (singleStep_inserts year text) _ _ d h1 with h2 | h2
    · unfold listedLoop at h2
      rcases loop_inserts year _ (listedStep_inserts year text) _ _ d h2 with h3 | h3
      · unfold rangeLoop at h3
        rcases loop_inserts year _ (rangeStep_inserts year text) _ _ d h3 with h4 | h4
        · exact absurd h4 (Finset.not_mem_empty d)
        · exact h4
      · exact h3
    · exact h2
  · exact h1

/-! ### `extract_nonworking_dates` unfolding equations -/

/-- The returned year is the detected year. -/
theorem extract_year (today : Int) (text : List Char) (hint : Option Int) :
    (extract_nonworking_dates today text hint).year = _detect_year today text hint := rfl

/-- The returned set is the pipeline's final set. -/
theorem extract_dates (today : Int) (text : List Char) (hint : Option Int) :
    (extract_nonworking_dates today text hint).nonworking_dates =
      (pipeline (_detect_year today text hint) text).nonworking := rfl

/-- A date guaranteed by a range match reaches the final result. -/
theorem extract_mem_of_rangeMatch (today : Int) (text : List Char) (hint : Option Int)
    {m : RMatch} {month k : Nat} {dt : PyDate}
    (hm : m ∈ finditer rangeRe text)
    (hmo : _normalize_month (groupChars text m 3) = some month)
    (hlo : min (charsToNat (groupChars text m 1)) (charsToNat (groupChars text m 2)) ≤ k)
    (hhi : k ≤ max (charsToNat (groupChars text m 1)) (charsToNat (groupChars text m 2)))
    (hsd : _safe_date (_detect_year today text hint) month k = some dt) :
    dt ∈ (extract_nonworking_dates today text hint).nonworking_dates := by
  rw [extract_dates]
  apply pipeline_mem_of_rangeLoop
  unfold rangeLoop
  exact foldl_hit _ (fun s : ExtState => dt ∈ s.nonworking) m
    (fun s a hs => rangeStep_mono _ text s a hs)
    (fun s => rangeStep_adds _ text s m month k dt hmo hlo hhi hsd) _ _ hm

/-- A date guaranteed by a list match reaches the final result. -/
theorem extract_mem_of_listedMatch (today : Int) (text : List Char) (hint : Option Int)
    {m : RMatch} {month k : Nat} {dt : PyDate}
    (hm : m ∈ finditer (listedRe (text.length + 1)) text)
    (hmo : _normalize_month (groupChars text m 2) = some month)
    (hk : k ∈ parseDays (groupChars text m 1))
    (hsd : _safe_date (_detect_year today text hint) month k = some dt) :
    dt ∈ (extract_nonworking_dates today text hint).nonworking_dates := by
  rw [extract_dates]
  apply pipeline_mem_of_listedLoop
  unfold listedLoop
  exact foldl_hit _ (fun s : ExtState => dt ∈ s.nonworking) m
    (fun s a hs => listedStep_mono _ text s a hs)
    (fun s => listedStep_adds _ text s m hmo hk hsd) _ _ hm

/-! ### Claim theorems -/

/-- C1: in the map returned by `build_year_map`, for every year and every
exception-date set, a day whose weekday is Saturday or Sunday is
classified `"нерабочий"` regardless of exception-set membership, a day
whose date is in the exception set is classified `"нерабочий"`, and every
other day is classified `"рабочий"`. -/
theorem C1_build_year_map_classification :
    ∀ (year : Int) (nw : Finset PyDate) (doy : Nat) (lab : String),
      1 ≤ year → year ≤ 9998 → (doy, lab) ∈ build_year_map year nw →
      ((5 ≤ weekday (dateOfDoy year doy) → lab = "нерабочий") ∧
       (dateOfDoy year doy ∈ nw → lab = "нерабочий") ∧
       (weekday (dateOfDoy year doy) < 5 → dateOfDoy year doy ∉ nw → lab = "рабочий")) := by
  intro year nw doy lab _ _ hmem
  unfold build_year_map at hmem
  obtain ⟨k, hk, heq⟩ := List.mem_map.mp hmem
  simp only [Prod.mk.injEq] at heq
  obtain ⟨hdoy, hlab⟩ := heq
  subst hdoy
  subst hlab
  refine ⟨?_, ?_, ?_⟩
  · intro hw
    rw [if_pos (Or.inl hw)]
  · intro hm
    rw [if_pos (Or.inr hm)]
  · intro h1 h2
    have hcond : ¬ (5 ≤ weekday (dateOfDoy year (k + 1)) ∨ dateOfDoy year (k + 1) ∈ nw) := by
      rintro (h5 | hm)
      · omega
      · exact h2 hm
    rw [if_neg hcond]

/-- C1 witness: 2025-01-04 is a Saturday (day-of-year 4), and the theorem
forces its label to be `"нерабочий"`. -/
theorem C1_build_year_map_classification_witness :
    ((4 : Nat), "нерабочий") ∈ build_year_map 2025 (∅ : Finset PyDate) ∧
    ("нерабочий" : String) = "нерабочий" :=
  ⟨by decide,
   (C1_build_year_map_classification 2025 ∅ 4 "нерабочий" (by norm_num) (by norm_num)
     (by decide)).1 (by decide)⟩

/-- C2: for every year and exception set, the keys of the map returned by
`build_year_map` are exactly the contiguous integers `1..N` where `N` is
the number of days of the year — 366 entries in a leap year, 365
otherwise. -/
theorem C2_build_year_map_keys :
    ∀ (year : Int) (nw : Finset PyDate), 1 ≤ year → year ≤ 9998 →
      ((build_year_map year nw).map Prod.fst = List.range' 1 (daysInYear year) ∧
       (build_year_map year nw).length = daysInYear year ∧
       (isLeap year = true → daysInYear year = 366) ∧
       (isLeap year = false → daysInYear year = 365)) := by
  intro year nw _ _
  refine ⟨?_, ?_, ?_, ?_⟩
  · unfold build_year_map
    rw [List.map_map, List.range'_eq_map_range]
    refine List.map_congr_left ?_
    intro a _
    simp [Nat.add_comm]
  · unfold build_year_map
    rw [List.length_map, List.length_range]
  · intro h
    simp [daysInYear, h]
  · intro h
    simp [daysInYear, h]

/-- C2 witness: 366 entries for the leap year 2024 and 365 for 2025. -/
theorem C2_build_year_map_keys_witness :
    (build_year_map 2024 (∅ : Finset PyDate)).length = 366 ∧
    (build_year_map 2025 (∅ : Finset PyDate)).length = 365 := by
  constructor
  · have h := C2_build_year_map_keys 2024 ∅ (by norm_num) (by norm_num)
    rw [h.2.1]
    exact h.2.2.1 (by decide)
  · have h := C2_build_year_map_keys 2025 ∅ (by norm_num) (by norm_num)
    rw [h.2.1]
    exact h.2.2.2 (by decide)

/-- C7: year detection tries the three `YEAR_PATTERNS` in order and
returns the year of the first that matches anywhere in the text,
overriding any caller-supplied hint; when none matches it returns the
fallback if provided and truthy, else the current year.  In particular
`«календарь на 2026 год»` yields 2026 even with hint 2025, and a text with
no year phrase and hint 2024 yields 2024. -/
theorem C7_detect_year_priority :
    (∀ (today : Int) (text : List Char) (fb : Option Int),
      (∀ y, searchYear yearP1 text = some y → _detect_year today text fb = y) ∧
      (searchYear yearP1 text = none →
        ∀ y, searchYear yearP2 text = some y → _detect_year today text fb = y) ∧
      (searchYear yearP1 text = none → searchYear yearP2 text = none →
        ∀ y, searchYear yearP3 text = some y → _detect_year today text fb = y) ∧
      (searchYear yearP1 text = none → searchYear yearP2 text = none →
        searchYear yearP3 text = none →
        ∀ f, fb = some f → f ≠ 0 → _detect_year today text fb = f) ∧
      (searchYear yearP1 text = none → searchYear yearP2 text = none →
        searchYear yearP3 text = none → (fb = none ∨ fb = some 0) →
        _detect_year today text fb = today)) ∧
    _detect_year 2031 "календарь на 2026 год".data (some 2025) = 2026 ∧
    _detect_year 2031 "просто текст".data (some 2024) = 2024 := by
  refine ⟨?_, by decide, by decide⟩
  intro today text fb
  refine ⟨?_, ?_, ?_, ?_, ?_⟩
  · intro y h1
    unfold _detect_year
    rw [h1]
  · intro h1 y h2
    unfold _detect_year
    rw [h1, h2]
  · intro h1 h2 y h3
    unfold _detect_year
    rw [h1, h2, h3]
  · intro h1 h2 h3 f hfb hf
    unfold _detect_year
    rw [h1, h2, h3, hfb]
    simp [hf]
  · intro h1 h2 h3 hfb
    unfold _detect_year
    rw [h1, h2, h3]
    rcases hfb with rfl | rfl
    · rfl
    · simp

/-- C7 witness: with no year phrase, a truthy hint 1999 is returned, and
with no hint the current year 2040 is returned. -/
theorem C7_detect_year_priority_witness :
    _detect_year 2040 "абв".data (some 1999) = 1999 ∧
    _detect_year 2040 "абв".data none = 2040 :=
  ⟨(C7_detect_year_priority.1 2040 "абв".data (some 1999)).2.2.2.1
     (by decide) (by decide) (by decide) 1999 rfl (by norm_num),
   (C7_detect_year_priority.1 2040 "абв".data none).2.2.2.2
     (by decide) (by decide) (by decide) (Or.inl rfl)⟩

/-- C3 (code evaluation at the failing input): the bare text `«8 марта»`,
with no trigger word anywhere, still yields the date 2025-03-08 — the
`LISTED_DAYS_RE` loop matches a bare `DAY MONTH` and adds it without any
context-window check, bypassing the single-date gate; the triggered text
yields the same set, likewise via the list loop (note `«Перечень»`). -/
theorem C3_bare_single_date_extracted_without_trigger :
    (extract_nonworking_dates 2031 "8 марта".data (some 2025)).nonworking_dates =
      {PyDate.mk 2025 3 8} ∧
    (extract_nonworking_dates 2031 "8 марта".data (some 2025)).notes =
      ["Перечень: 8 марта"] ∧
    (extract_nonworking_dates 2031 "8 марта — нерабочий день".data (some 2025)).nonworking_dates =
      {PyDate.mk 2025 3 8} := by
  refine ⟨by decide, by decide, by decide⟩

/-- C4: for every `RANGE_RE` match with a recognized month, extraction
puts every valid date from `min(d1,d2)` to `max(d1,d2)` of that month and
the detected year into the result (invalid days contribute nothing); on
`«с 1 по 8 января»` with hint 2025 the result is exactly the eight dates
2025-01-01..2025-01-08 with one note. -/
theorem C4_range_extractor :
    (∀ (today : Int) (text : List Char) (hint : Option Int) (m : RMatch)
       (month k : Nat) (dt : PyDate),
      m ∈ finditer rangeRe text →
      _normalize_month (groupChars text m 3) = some month →
      min (charsToNat (groupChars text m 1)) (charsToNat (groupChars text m 2)) ≤ k →
      k ≤ max (charsToNat (groupChars text m 1)) (charsToNat (groupChars text m 2)) →
      _safe_date (_detect_year today text hint) month k = some dt →
      dt ∈ (extract_nonworking_dates today text hint).nonworking_dates) ∧
    (extract_nonworking_dates 2031 "с 1 по 8 января".data (some 2025)).nonworking_dates =
      {PyDate.mk 2025 1 1, PyDate.mk 2025 1 2, PyDate.mk 2025 1 3, PyDate.mk 2025 1 4,
       PyDate.mk 2025 1 5, PyDate.mk 2025 1 6, PyDate.mk 2025 1 7, PyDate.mk 2025 1 8} ∧
    (extract_nonworking_dates 2031 "с 1 по 8 января".data (some 2025)).notes =
      ["Диапазон: 1-8 января"] ∧
    (extract_nonworking_dates 2031 "с 1 по 8 января".data (some 2025)).year = 2025 := by
  refine ⟨?_, by decide, by decide, by decide⟩
  intro today text hint m month k dt hm hmo hlo hhi hsd
  exact extract_mem_of_rangeMatch today text hint hm hmo hlo hhi hsd

/-- C4 witness: the single range match of `«с 1 по 8 января»` forces
2025-01-03 into the result. -/
theorem C4_range_extractor_witness :
    (⟨0, 15, [(3, 9, 15), (2, 7, 8), (1, 2, 3)]⟩ : RMatch) ∈
      finditer rangeRe "с 1 по 8 января".data ∧
    PyDate.mk 2025 1 3 ∈
      (extract_nonworking_dates 2031 "с 1 по 8 января".data (some 2025)).nonworking_dates :=
  ⟨by decide,
   C4_range_extractor.1 2031 "с 1 по 8 января".data (some 2025)
     ⟨0, 15, [(3, 9, 15), (2, 7, 8), (1, 2, 3)]⟩ 1 3 (PyDate.mk 2025 1 3)
     (by decide) (by decide) (by decide) (by decide) (by decide)⟩

/-- C5: for every `LISTED_DAYS_RE` match with a recognized month, each
valid parsed day's date is in the set after the loop body (newly added
when absent), the diagnostic note is appended if and only if at least one
day was newly added, and with nothing new the body is a no-op; on
`«1, 2 и 7 января нерабочие»` with hint 2025 extraction yields exactly
{2025-01-01, 2025-01-02, 2025-01-07} and one note, while after a range
already covering 2025-01-01..08 the same list contributes no date and no
note. -/
theorem C5_list_extractor :
    (∀ (year : Int) (text : List Char) (st : ExtState) (m : RMatch) (month : Nat),
      _normalize_month (groupChars text m 2) = some month →
      ((∀ k ∈ parseDays (groupChars text m 1), ∀ dt,
          _safe_date year month k = some dt → dt ∈ (listedStep year text st m).nonworking) ∧
       ((listedStep year text st m).notes =
           st.notes ++ [listNote (groupChars text m 1) (groupChars text m 2)] ↔
         ∃ k ∈ parseDays (groupChars text m 1), ∃ dt,
           _safe_date year month k = some dt ∧ dt ∉ st.nonworking) ∧
       ((¬ ∃ k ∈ parseDays (groupChars text m 1), ∃ dt,
           _safe_date year month k = some dt ∧ dt ∉ st.nonworking) →
         listedStep year text st m = st))) ∧
    (extract_nonworking_dates 2031 "1, 2 и 7 января нерабочие".data (some 2025)).nonworking_dates =
      {PyDate.mk 2025 1 1, PyDate.mk 2025 1 2, PyDate.mk 2025 1 7} ∧
    (extract_nonworking_dates 2031 "1, 2 и 7 января нерабочие".data (some 2025)).notes =
      ["Перечень: 1, 2 и 7 января"] ∧
    (extract_nonworking_dates 2031
        "с 1 по 8 января. 1, 2 и 7 января нерабочие".data (some 2025)).nonworking_dates =
      {PyDate.mk 2025 1 1, PyDate.mk 2025 1 2, PyDate.mk 2025 1 3, PyDate.mk 2025 1 4,
       PyDate.mk 2025 1 5, PyDate.mk 2025 1 6, PyDate.mk 2025 1 7, PyDate.mk 2025 1 8} ∧
    (extract_nonworking_dates 2031
        "с 1 по 8 января. 1, 2 и 7 января нерабочие".data (some 2025)).notes =
      ["Диапазон: 1-8 января"] := by
  refine ⟨?_, by decide, by decide, by decide, by decide⟩
  intro year text st m month hmo
  exact ⟨fun k hk dt hsd => listedStep_adds year text st m hmo hk hsd,
         listedStep_notes year text st m hmo,
         listedStep_unchanged year text st m hmo⟩

/-- C5 witness: the list match of `«1 января»` on the empty state adds
2025-01-01. -/
theorem C5_list_extractor_witness :
    PyDate.mk 2025 1 1 ∈
      (listedStep 2025 "1 января".data ⟨∅, []⟩ ⟨0, 8, [(2, 2, 8), (1, 0, 1)]⟩).nonworking :=
  (C5_list_extractor.1 2025 "1 января".data ⟨∅, []⟩ ⟨0, 8, [(2, 2, 8), (1, 0, 1)]⟩ 1
    (by decide)).1 1 (by decide) (PyDate.mk 2025 1 1) (by decide)

/-- C6 counterexample: on `«перенос выходного с 5 января на 8 января»`
(hint 2025) the extraction result contains the source date 2025-01-05 (the
list and single-date extractors match `«5 января»` independently of the
transfer extractor), so the result is not only {2025-01-08}. -/
theorem C6_transfer_counterexample :
    PyDate.mk 2025 1 5 ∈
      (extract_nonworking_dates 2031
        "перенос выходного с 5 января на 8 января".data (some 2025)).nonworking_dates ∧
    (extract_nonworking_dates 2031
        "перенос выходного с 5 января на 8 января".data (some 2025)).nonworking_dates ≠
      {PyDate.mk 2025 1 8} := by
  refine ⟨by decide, by decide⟩

/-- C6 (amended): the transfer-loop body itself contributes only the
destination date — any member of its output set was already present or is
the valid date built from the `to_day`/`to_month` groups, never the source
date; but on the example text the full extraction yields
{2025-01-05, 2025-01-08}, because the list extractor also matches
`«5 января»` and `«8 января»`. -/
theorem C6_transfer_destination_only :
    (∀ (year : Int) (text : List Char) (st : ExtState) (m : RMatch) (d : PyDate),
      d ∈ (transferStep year text st m).nonworking →
      d ∈ st.nonworking ∨ ∃ mto, _normalize_month (groupChars text m 5) = some mto ∧
        _safe_date year mto (charsToNat (groupChars text m 4)) = some d) ∧
    (extract_nonworking_dates 2031
        "перенос выходного с 5 января на 8 января".data (some 2025)).nonworking_dates =
      {PyDate.mk 2025 1 5, PyDate.mk 2025 1 8} ∧
    (extract_nonworking_dates 2031
        "перенос выходного с 5 января на 8 января".data (some 2025)).notes =
      ["Перечень: 5 января", "Перечень: 8 января", "Перенос на: 8 января"] := by
  refine ⟨?_, by decide, by decide⟩
  intro year text st m d hd
  exact transferStep_subset year text st m hd

/-- C6 witness: applied to the transfer match of the example text on the
empty state, the date 2025-01-08 in its output is explained by the
destination groups. -/
theorem C6_transfer_destination_only_witness :
    PyDate.mk 2025 1 8 ∈ (⟨∅, []⟩ : ExtState).nonworking ∨
    ∃ mto, _normalize_month (groupChars
        "перенос выходного с 5 января на 8 января".data
        ⟨0, 40, [(5, 34, 40), (4, 32, 33), (3, 22, 28), (2, 20, 21), (1, 0, 7)]⟩ 5) = some mto ∧
      _safe_date 2025 mto (charsToNat (groupChars
        "перенос выходного с 5 января на 8 января".data
        ⟨0, 40, [(5, 34, 40), (4, 32, 33), (3, 22, 28), (2, 20, 21), (1, 0, 7)]⟩ 4)) =
        some (PyDate.mk 2025 1 8) :=
  C6_transfer_destination_only.1 2025
    "перенос выходного с 5 января на 8 января".data ⟨∅, []⟩
    ⟨0, 40, [(5, 34, 40), (4, 32, 33), (3, 22, 28), (2, 20, 21), (1, 0, 7)]⟩
    (PyDate.mk 2025 1 8) (by decide)

/-- C8: extraction never raises — the only raising primitive, the `date`
constructor, is wrapped by `_safe_date`, whose `except ValueError` branch
returns `None`; consequently every date in any extraction result is a
valid proleptic-Gregorian date, an unrecognized month makes the range-loop
body a no-op, and an invalid day range merely contributes fewer dates:
`«с 27 по 31 февраля ...»` (2025) yields only Feb 27 and Feb 28. -/
theorem C8_no_exceptions :
    (∀ (y : Int) (m d : Nat) (err : String),
      date_ctor y m d = Except.error err → _safe_date y m d = none) ∧
    (∀ (today : Int) (text : List Char) (hint : Option Int) (d : PyDate),
      d ∈ (extract_nonworking_dates today text hint).nonworking_dates →
      dateOk d.year d.month d.day = true) ∧
    (∀ (year : Int) (text : List Char) (st : ExtState) (m : RMatch),
      _normalize_month (groupChars text m 3) = none → rangeStep year text st m = st) ∧
    (extract_nonworking_dates 2031
        "с 27 по 31 февраля нерабочие дни".data (some 2025)).nonworking_dates =
      {PyDate.mk 2025 2 27, PyDate.mk 2025 2 28} ∧
    (extract_nonworking_dates 2031
        "с 27 по 31 февраля нерабочие дни".data (some 2025)).notes =
      ["Диапазон: 27-31 февраля"] := by
  refine ⟨?_, ?_, ?_, by decide, by decide⟩
  · intro y m d err h
    unfold _safe_date
    rw [h]
  · intro today text hint d hd
    rw [extract_dates] at hd
    obtain ⟨mo, dd, h⟩ := pipeline_inserts _ _ hd
    exact safe_date_valid h
  · intro year text st m h
    unfold rangeStep
    rw [h]

/-- C8 witness: `date(2025, 2, 31)` raises and is caught (`None`), and the
date extracted from `«8 марта»` is valid. -/
theorem C8_no_exceptions_witness :
    _safe_date 2025 2 31 = none ∧ dateOk 2025 3 8 = true :=
  ⟨C8_no_exceptions.1 2025 2 31 "ValueError" rfl,
   C8_no_exceptions.2.1 2031 "8 марта".data (some 2025) (PyDate.mk 2025 3 8) (by decide)⟩

/-- C9: the `LISTED_DAYS_RE` pattern also matches a bare single
`DAY MONTH` occurrence (its starred and optional parts may be empty) —
on `«8 марта»` it produces exactly one match whose `days` group is `«8»`
and whose `month` group is `«марта»` — and for every list match with a
recognized month, every valid parsed day's date reaches the extraction
result with no context-window gating at that stage. -/
theorem C9_list_pattern_matches_bare_single :
    finditer (listedRe ("8 марта".data.length + 1)) "8 марта".data =
      [⟨0, 7, [(2, 2, 7), (1, 0, 1)]⟩] ∧
    groupChars "8 марта".data ⟨0, 7, [(2, 2, 7), (1, 0, 1)]⟩ 1 = "8".data ∧
    groupChars "8 марта".data ⟨0, 7, [(2, 2, 7), (1, 0, 1)]⟩ 2 = "марта".data ∧
    (∀ (today : Int) (text : List Char) (hint : Option Int) (m : RMatch)
       (month k : Nat) (dt : PyDate),
      m ∈ finditer (listedRe (text.length + 1)) text →
      _normalize_month (groupChars text m 2) = some month →
      k ∈ parseDays (groupChars text m 1) →
      _safe_date (_detect_year today text hint) month k = some dt →
      dt ∈ (extract_nonworking_dates today text hint).nonworking_dates) := by
  refine ⟨by decide, by decide, by decide, ?_⟩
  intro today text hint m month k dt hm hmo hk hsd
  exact extract_mem_of_listedMatch today text hint hm hmo hk hsd

/-- C9 witness: the bare-single list match of `«8 марта»` puts 2025-03-08
into the extraction result. -/
theorem C9_list_pattern_matches_bare_single_witness :
    PyDate.mk 2025 3 8 ∈
      (extract_nonworking_dates 2031 "8 марта".data (some 2025)).nonworking_dates :=
  C9_list_pattern_matches_bare_single.2.2.2 2031 "8 марта".data (some 2025)
    ⟨0, 7, [(2, 2, 7), (1, 0, 1)]⟩ 3 8 (PyDate.mk 2025 3 8)
    (by decide) (by decide) (by decide) (by decide)

/-- C10: every date in the returned `ParseResult.nonworking_dates` has its
year component equal to `ParseResult.year` — all four extractors construct
dates only with the single detected year. -/
theorem C10_dates_carry_detected_year :
    ∀ (today : Int) (text : List Char) (hint : Option Int) (d : PyDate),
      d ∈ (extract_nonworking_dates today text hint).nonworking_dates →
      d.year = (extract_nonworking_dates today text hint).year := by
  intro today text hint d hd
  rw [extract_year]
  rw [extract_dates] at hd
  obtain ⟨mo, dd, h⟩ := pipeline_inserts _ _ hd
  exact safe_date_year h

/-- C10 witness: the date extracted from `«8 марта»` carries the detected
year 2025. -/
theorem C10_dates_carry_detected_year_witness :
    (PyDate.mk 2025 3 8).year =
      (extract_nonworking_dates 2031 "8 марта".data (some 2025)).year :=
  C10_dates_carry_detected_year 2031 "8 марта".data (some 2025)
    (PyDate.mk 2025 3 8) (by decide)
